import Mathlib

/-!
Shallow embedding of the yatlv tag-length-value codec (src/lib.rs).

Bytes are modelled as `Nat` (kept below 256 by construction/hypotheses),
buffers as `List Nat`.  Rust `u16::to_be_bytes` / `u32::to_be_bytes` are the
big-endian encoders below; the `as u32` cast in `add_data` is reflected by
`u32be` reducing its argument modulo `2 ^ 32` bytewise.  The two builders
mutate a `Vec<u8>` and patch placeholders in `Drop`; they are modelled as
explicit state records plus an interpreter over a tree of build operations,
with the `Drop` patching performed when a builder goes out of scope.
-/

namespace Yatlv

/-- Big-endian bytes of a `u16` (`u16::to_be_bytes`). -/
def u16be (v : Nat) : List Nat :=
  [v / 2 ^ 8 % 256, v % 256]

/-- Big-endian bytes of a `u32` (`u32::to_be_bytes`, wrapping like an `as u32` cast). -/
def u32be (v : Nat) : List Nat :=
  [v / 2 ^ 24 % 256, v / 2 ^ 16 % 256, v / 2 ^ 8 % 256, v % 256]

/-- Big-endian bytes of a `u64` (`u64::to_be_bytes`). -/
def u64be (v : Nat) : List Nat :=
  [v / 2 ^ 56 % 256, v / 2 ^ 48 % 256, v / 2 ^ 40 % 256, v / 2 ^ 32 % 256,
   v / 2 ^ 24 % 256, v / 2 ^ 16 % 256, v / 2 ^ 8 % 256, v % 256]

/-- Value of a big-endian byte slice (`uNN::from_be_bytes`). -/
def beVal (bs : List Nat) : Nat :=
  bs.foldl (fun a b => a * 256 + b) 0

/-- Overwrite `repl.length` bytes of `l` starting at `pos`
(`slice[pos..pos+n].copy_from_slice(repl)`; all uses are in bounds). -/
def patchAt (l : List Nat) (pos : Nat) (repl : List Nat) : List Nat :=
  l.take pos ++ repl ++ l.drop (pos + repl.length)

/-- The library error type (`enum Error` in src/lib.rs). -/
inductive Error where
  | IncompleteFrameFormat
  | InvalidFrameFormat : Nat → Error
  | IncompleteFrameFieldCount
  | IncompleteFieldTagOrLength
  | IncompleteFieldValue : Nat → Nat → Error
  | IncompatibleFieldLength : Nat → Error
  | IncompatibleFieldValue
  | UnexpectedData
  deriving DecidableEq, Repr

/-- State of `FrameBuilder<'a>`: the field counter, the buffer offset
remembered at `new`, and the (borrowed) buffer contents. -/
structure FrameBuilder where
  field_count : Nat
  field_start : Nat
  data : List Nat
  deriving DecidableEq, Repr

/-- `FrameBuilder::new`: append the format byte and a zero count placeholder. -/
def FrameBuilder.new (data : List Nat) : FrameBuilder :=
  ⟨0, data.length, data ++ [1, 0, 0, 0, 0]⟩

/-- `Drop for FrameBuilder`: patch the 4-byte count placeholder at
`field_start + 1` with the big-endian field count; yields the buffer. -/
def FrameBuilder.drop (b : FrameBuilder) : List Nat :=
  patchAt b.data (b.field_start + 1) (u32be b.field_count)

/-- State of `PacketFrameBuilder<'a>`. -/
structure PacketFrameBuilder where
  field_count : Nat
  packet_start : Nat
  data : List Nat
  deriving DecidableEq, Repr

/-- `PacketFrameBuilder::new`: append a zero size placeholder, the format
byte and a zero count placeholder. -/
def PacketFrameBuilder.new (data : List Nat) : PacketFrameBuilder :=
  ⟨0, data.length, data ++ [0, 0, 0, 0, 1, 0, 0, 0, 0]⟩

/-- `Drop for PacketFrameBuilder`: patch the size placeholder with
`data.len() - packet_start - 4` and the count placeholder at
`packet_start + 5`; yields the buffer. -/
def PacketFrameBuilder.drop (b : PacketFrameBuilder) : List Nat :=
  let packet_length := b.data.length - b.packet_start - 4
  patchAt (patchAt b.data b.packet_start (u32be packet_length))
    (b.packet_start + 5) (u32be b.field_count)

mutual
/-- One builder call: `add_data(tag, value)` or `add_child(tag)` together
with everything written into the child builder before it drops. -/
inductive BuildOp where
  | data : Nat → List Nat → BuildOp
  | child : Nat → BuildOps → BuildOp

/-- A sequence of builder calls. -/
inductive BuildOps where
  | nil : BuildOps
  | cons : BuildOp → BuildOps → BuildOps
end

/-- `<FrameBuilder as FrameBuilderLike>::add_data`: bump the counter and
append tag, length (`value.len() as u32`) and value bytes. -/
def FrameBuilder.add_data (b : FrameBuilder) (tag : Nat) (value : List Nat) :
    FrameBuilder :=
  ⟨b.field_count + 1, b.field_start,
    b.data ++ u16be tag ++ u32be value.length ++ value⟩

/-- `<PacketFrameBuilder as FrameBuilderLike>::add_data` (same body). -/
def PacketFrameBuilder.add_data (b : PacketFrameBuilder) (tag : Nat)
    (value : List Nat) : PacketFrameBuilder :=
  ⟨b.field_count + 1, b.packet_start,
    b.data ++ u16be tag ++ u32be value.length ++ value⟩

mutual
/-- Run one builder call against a `FrameBuilder`.  `add_child` bumps the
counter, appends the tag bytes and opens a `PacketFrameBuilder` on the
buffer; the child's ops run and its `Drop` patches its placeholders before
control returns to the parent (the Rust borrow/scope discipline). -/
def runOpF (b : FrameBuilder) : BuildOp → FrameBuilder
  | .data tag value => b.add_data tag value
  | .child tag cops =>
      ⟨b.field_count + 1, b.field_start,
        (runOpsP (PacketFrameBuilder.new (b.data ++ u16be tag)) cops).drop⟩

/-- Run a sequence of builder calls against a `FrameBuilder`. -/
def runOpsF (b : FrameBuilder) : BuildOps → FrameBuilder
  | .nil => b
  | .cons op ops => runOpsF (runOpF b op) ops

/-- Run one builder call against a `PacketFrameBuilder` (same `add_child`
body as the `FrameBuilder` impl). -/
def runOpP (b : PacketFrameBuilder) : BuildOp → PacketFrameBuilder
  | .data tag value => b.add_data tag value
  | .child tag cops =>
      ⟨b.field_count + 1, b.packet_start,
        (runOpsP (PacketFrameBuilder.new (b.data ++ u16be tag)) cops).drop⟩

/-- Run a sequence of builder calls against a `PacketFrameBuilder`. -/
def runOpsP (b : PacketFrameBuilder) : BuildOps → PacketFrameBuilder
  | .nil => b
  | .cons op ops => runOpsP (runOpP b op) ops
end

/-- Open a `FrameBuilder` on `data`, run `ops`, and let it drop. -/
def buildFrame (data : List Nat) (ops : BuildOps) : List Nat :=
  (runOpsF (FrameBuilder.new data) ops).drop

/-- Open a `PacketFrameBuilder` on `data`, run `ops`, and let it drop. -/
def buildPacketFrame (data : List Nat) (ops : BuildOps) : List Nat :=
  (runOpsP (PacketFrameBuilder.new data) ops).drop

/-- Number of builder calls in a sequence (each call increments the
enclosing frame's field counter exactly once). -/
def opsCount : BuildOps → Nat
  | .nil => 0
  | .cons _ ops => opsCount ops + 1

mutual
/-- The bytes a single builder call appends to the buffer (once every
involved builder has dropped). -/
def opBytes : BuildOp → List Nat
  | .data tag v => u16be tag ++ u32be v.length ++ v
  | .child tag cops =>
      u16be tag ++ u32be (frameBytes cops).length ++ frameBytes cops

/-- The bytes a sequence of builder calls appends to the buffer. -/
def opsBytes : BuildOps → List Nat
  | .nil => []
  | .cons op ops => opBytes op ++ opsBytes ops

/-- The complete frame encoding produced by `ops`: format byte, big-endian
field count, then the fields. -/
def frameBytes (ops : BuildOps) : List Nat :=
  1 :: (u32be (opsCount ops) ++ opsBytes ops)
end

/-- Convenience encoders of `FrameBuilderLike`, as the value bytes they pass
to `add_data`.  `add_u8` writes `value.to_be_bytes()` of a `u8`. -/
def add_u8op (tag v : Nat) : BuildOp := .data tag [v % 256]

/-- `add_u16`: two-byte big-endian value. -/
def add_u16op (tag v : Nat) : BuildOp := .data tag (u16be v)

/-- `add_u32`: four-byte big-endian value. -/
def add_u32op (tag v : Nat) : BuildOp := .data tag (u32be v)

/-- `add_u64`: eight-byte big-endian value. -/
def add_u64op (tag v : Nat) : BuildOp := .data tag (u64be v)

/-- `add_bool`: `add_u8` of `0xFF` for true and `0x00` for false. -/
def add_boolop (tag : Nat) (value : Bool) : BuildOp :=
  add_u8op tag (if value then 0xFF else 0x00)

/-- Modelled from the spec: the crate sources under src/ contain no
`add_compact_u16` method, so this follows spec §4.1 — write the smallest of
the fixed-width encodings {u8, u16} that holds the value without loss,
falling through from narrowest to widest by threshold comparison. -/
def add_compact_u16 (tag v : Nat) : BuildOp :=
  if v ≤ 0xFF then add_u8op tag v else add_u16op tag v

/-- Modelled from the spec: the crate sources under src/ contain no
`add_compact_u32` method, so this follows spec §4.1 — use the u8/u16
encoding via compact-u16 if the value is ≤ 0xFFFF, else the 4-byte u32. -/
def add_compact_u32 (tag v : Nat) : BuildOp :=
  if v ≤ 0xFFFF then add_compact_u16 tag v else add_u32op tag v

/-- Modelled from the spec: the crate sources under src/ contain no
`add_compact_u64` method, so this follows spec §4.1 — use the narrower
encodings via compact-u32 if the value is ≤ 0xFFFFFFFF, else the 8-byte u64. -/
def add_compact_u64 (tag v : Nat) : BuildOp :=
  if v ≤ 0xFFFFFFFF then add_compact_u32 tag v else add_u64op tag v

/-- A recorded field of the parser (`struct FrameParserField<'a>`): the tag
and the value slice (borrowed in Rust, copied in this model). -/
structure FrameParserField where
  tag : Nat
  value : List Nat
  deriving DecidableEq, Repr

/-- `struct FrameParser<'a>`: the indexed fields, in encounter order. -/
structure FrameParser where
  fields : List FrameParserField
  deriving DecidableEq, Repr

/-- `fn read_frame_format`: consume the one-byte format discriminator;
only `0x01` is recognized. -/
def read_frame_format : List Nat → Except Error (List Nat)
  | [] => .error .IncompleteFrameFormat
  | raw_format :: tail =>
      if raw_format = 1 then .ok tail
      else .error (.InvalidFrameFormat raw_format)

/-- `fn read_frame_field_count`: consume a four-byte big-endian count. -/
def read_frame_field_count (data : List Nat) : Except Error (Nat × List Nat) :=
  if 4 ≤ data.length then .ok (beVal (data.take 4), data.drop 4)
  else .error .IncompleteFrameFieldCount

/-- `fn read_field_tag_and_length`: consume a two-byte tag and a four-byte
length. -/
def read_field_tag_and_length (data : List Nat) :
    Except Error (Nat × Nat × List Nat) :=
  if 6 ≤ data.length then
    .ok (beVal (data.take 2), beVal ((data.drop 2).take 4), (data.drop 2).drop 4)
  else .error .IncompleteFieldTagOrLength

/-- `fn read_field_value`: consume `field_length` bytes of value. -/
def read_field_value (data : List Nat) (field_length : Nat) :
    Except Error (List Nat × List Nat) :=
  if field_length ≤ data.length then .ok (data.take field_length, data.drop field_length)
  else .error (.IncompleteFieldValue field_length data.length)

/-- The `for _ in 0..field_count` loop of `FrameParser::new`: read
`field_count` fields, returning them with the unconsumed remainder. -/
def readFields : Nat → List Nat → Except Error (List FrameParserField × List Nat)
  | 0, body => .ok ([], body)
  | n + 1, body =>
      match read_field_tag_and_length body with
      | .error e => .error e
      | .ok (tag, length, tail) =>
          match read_field_value tail length with
          | .error e => .error e
          | .ok (value, tail2) =>
              match readFields n tail2 with
              | .error e => .error e
              | .ok (fields, rest) => .ok (⟨tag, value⟩ :: fields, rest)

/-- `FrameParser::new`: format byte, field count, `field_count` fields, then
the buffer must be exhausted. -/
def FrameParser.new (frame_data : List Nat) : Except Error FrameParser :=
  match read_frame_format frame_data with
  | .error e => .error e
  | .ok body =>
      match read_frame_field_count body with
      | .error e => .error e
      | .ok (field_count, body) =>
          match readFields field_count body with
          | .error e => .error e
          | .ok (fields, body) =>
              if body.isEmpty then .ok ⟨fields⟩ else .error .UnexpectedData

/-- `FrameParser::get_data`: value slice of the first field with the tag. -/
def FrameParser.get_data (p : FrameParser) (search_tag : Nat) :
    Option (List Nat) :=
  (p.fields.find? (fun f => f.tag == search_tag)).map (fun f => f.value)

/-- `FrameParser::get_datas`: value slices of all fields with the tag, in
encounter order. -/
def FrameParser.get_datas (p : FrameParser) (search_tag : Nat) :
    List (List Nat) :=
  (p.fields.filter (fun f => f.tag == search_tag)).map (fun f => f.value)

/-- `fn decode_u8`: lengths 1, 2, 4, 8 decode big-endian and must fit a u8. -/
def decode_u8 (value : List Nat) : Except Error Nat :=
  match value with
  | [b0] => .ok b0
  | [b0, b1] =>
      if beVal [b0, b1] ≤ 0xFF then .ok (beVal [b0, b1])
      else .error .IncompatibleFieldValue
  | [b0, b1, b2, b3] =>
      if beVal [b0, b1, b2, b3] ≤ 0xFF then .ok (beVal [b0, b1, b2, b3])
      else .error .IncompatibleFieldValue
  | [b0, b1, b2, b3, b4, b5, b6, b7] =>
      if beVal [b0, b1, b2, b3, b4, b5, b6, b7] ≤ 0xFF then
        .ok (beVal [b0, b1, b2, b3, b4, b5, b6, b7])
      else .error .IncompatibleFieldValue
  | _ => .error (.IncompatibleFieldLength value.length)

/-- `fn decode_u16`: lengths 1, 2 always fit; 4, 8 must fit a u16. -/
def decode_u16 (value : List Nat) : Except Error Nat :=
  match value with
  | [b0] => .ok b0
  | [b0, b1] => .ok (beVal [b0, b1])
  | [b0, b1, b2, b3] =>
      if beVal [b0, b1, b2, b3] ≤ 0xFFFF then .ok (beVal [b0, b1, b2, b3])
      else .error .IncompatibleFieldValue
  | [b0, b1, b2, b3, b4, b5, b6, b7] =>
      if beVal [b0, b1, b2, b3, b4, b5, b6, b7] ≤ 0xFFFF then
        .ok (beVal [b0, b1, b2, b3, b4, b5, b6, b7])
      else .error .IncompatibleFieldValue
  | _ => .error (.IncompatibleFieldLength value.length)

/-- `fn decode_u32`: lengths 1, 2, 4 always fit; 8 must fit a u32. -/
def decode_u32 (value : List Nat) : Except Error Nat :=
  match value with
  | [b0] => .ok b0
  | [b0, b1] => .ok (beVal [b0, b1])
  | [b0, b1, b2, b3] => .ok (beVal [b0, b1, b2, b3])
  | [b0, b1, b2, b3, b4, b5, b6, b7] =>
      if beVal [b0, b1, b2, b3, b4, b5, b6, b7] ≤ 0xFFFFFFFF then
        .ok (beVal [b0, b1, b2, b3, b4, b5, b6, b7])
      else .error .IncompatibleFieldValue
  | _ => .error (.IncompatibleFieldLength value.length)

/-- `fn decode_u64`: lengths 1, 2, 4, 8 always fit. -/
def decode_u64 (value : List Nat) : Except Error Nat :=
  match value with
  | [b0] => .ok b0
  | [b0, b1] => .ok (beVal [b0, b1])
  | [b0, b1, b2, b3] => .ok (beVal [b0, b1, b2, b3])
  | [b0, b1, b2, b3, b4, b5, b6, b7] => .ok (beVal [b0, b1, b2, b3, b4, b5, b6, b7])
  | _ => .error (.IncompatibleFieldLength value.length)

/-- `fn decode_bool`: length must be 1 and the byte exactly `0x00` or `0xFF`. -/
def decode_bool (value : List Nat) : Except Error Bool :=
  if value.length ≠ 1 then .error (.IncompatibleFieldLength value.length)
  else
    match value.headD 0 with
    | 0x00 => .ok false
    | 0xFF => .ok true
    | _ => .error .IncompatibleFieldValue

/-- `FrameParser::decode_value`: `get_data` then decode, transposed. -/
def FrameParser.decode_value {α : Type} (p : FrameParser) (search_tag : Nat)
    (decoder : List Nat → Except Error α) : Except Error (Option α) :=
  match p.get_data search_tag with
  | none => .ok none
  | some v =>
      match decoder v with
      | .error e => .error e
      | .ok x => .ok (some x)

/-- `FrameParser::get_u8`. -/
def FrameParser.get_u8 (p : FrameParser) (search_tag : Nat) :
    Except Error (Option Nat) :=
  p.decode_value search_tag decode_u8

/-- `FrameParser::get_u16`. -/
def FrameParser.get_u16 (p : FrameParser) (search_tag : Nat) :
    Except Error (Option Nat) :=
  p.decode_value search_tag decode_u16

/-- `FrameParser::get_u32`. -/
def FrameParser.get_u32 (p : FrameParser) (search_tag : Nat) :
    Except Error (Option Nat) :=
  p.decode_value search_tag decode_u32

/-- `FrameParser::get_u64`. -/
def FrameParser.get_u64 (p : FrameParser) (search_tag : Nat) :
    Except Error (Option Nat) :=
  p.decode_value search_tag decode_u64

/-- `FrameParser::get_bool`. -/
def FrameParser.get_bool (p : FrameParser) (search_tag : Nat) :
    Except Error (Option Bool) :=
  p.decode_value search_tag decode_bool

/-- `FrameParser::get_child`: look up the value slice and parse it with
`FrameParser::new`, transposed. -/
def FrameParser.get_child (p : FrameParser) (search_tag : Nat) :
    Except Error (Option FrameParser) :=
  match p.get_data search_tag with
  | none => .ok none
  | some v =>
      match FrameParser.new v with
      | .error e => .error e
      | .ok c => .ok (some c)

/-- The parser field a single builder call gives rise to. -/
def opField : BuildOp → FrameParserField
  | .data tag v => ⟨tag, v⟩
  | .child tag cops => ⟨tag, frameBytes cops⟩

/-- The parser fields a sequence of builder calls gives rise to. -/
def opsFields : BuildOps → List FrameParserField
  | .nil => []
  | .cons op ops => opField op :: opsFields ops

/-- First builder call of a sequence whose field carries `tag`. -/
def firstWithTag (tag : Nat) : BuildOps → Option BuildOp
  | .nil => none
  | .cons op ops =>
      if (opField op).tag = tag then some op else firstWithTag tag ops

/-- A pure `add_data` call sequence from (tag, value) pairs. -/
def dataOps : List (Nat × List Nat) → BuildOps
  | [] => .nil
  | p :: ps => .cons (.data p.1 p.2) (dataOps ps)

mutual
/-- Side conditions under which the Rust integer types cannot truncate:
tags fit a u16, value lengths and child frame sizes fit a u32, and each
frame's field count fits a u32. -/
def wfOp : BuildOp → Bool
  | .data tag v => decide (tag < 2 ^ 16) && decide (v.length < 2 ^ 32)
  | .child tag cops =>
      decide (tag < 2 ^ 16) && decide ((frameBytes cops).length < 2 ^ 32) &&
        decide (opsCount cops < 2 ^ 32) && wfOps cops

/-- `wfOp` across a sequence. -/
def wfOps : BuildOps → Bool
  | .nil => true
  | .cons op ops => wfOp op && wfOps ops
end

/-- Well-formedness of a whole frame's call sequence. -/
def wfFrame (ops : BuildOps) : Bool :=
  decide (opsCount ops < 2 ^ 32) && wfOps ops

/-- Follows claim C1's words, not the source: a byte slice is an embedded
Packet-Frame when it is a four-byte big-endian size prefix followed by a
frame of exactly that many bytes that parses. -/
def IsPacketFrame (data : List Nat) : Prop :=
  4 ≤ data.length ∧ beVal (data.take 4) + 4 = data.length ∧
    ∃ P, FrameParser.new (data.drop 4) = .ok P

/-! ### Byte-level lemmas -/

theorem u16be_length (v : Nat) : (u16be v).length = 2 := rfl

theorem u32be_length (v : Nat) : (u32be v).length = 4 := rfl

theorem u64be_length (v : Nat) : (u64be v).length = 8 := rfl

theorem beVal_u16be (v : Nat) (h : v < 2 ^ 16) : beVal (u16be v) = v := by
  simp [beVal, u16be, List.foldl]
  omega

theorem beVal_u32be (v : Nat) (h : v < 2 ^ 32) : beVal (u32be v) = v := by
  simp [beVal, u32be, List.foldl]
  omega

theorem beVal_u64be (v : Nat) (h : v < 2 ^ 64) : beVal (u64be v) = v := by
  simp [beVal, u64be, List.foldl]
  omega

theorem frameBytes_length (ops : BuildOps) :
    (frameBytes ops).length = 5 + (opsBytes ops).length := by
  simp [frameBytes, u32be]
  omega

/-! ### Patching lemmas -/

theorem patchAt_exact (p mid rest repl : List Nat) (h : mid.length = repl.length) :
    patchAt (p ++ (mid ++ rest)) p.length repl = p ++ (repl ++ rest) := by
  unfold patchAt
  rw [List.take_left, ← h, ← List.append_assoc]
  have hp : p.length + mid.length = (p ++ mid).length := by simp
  rw [hp, List.drop_left]
  simp

/-- Effect of `Drop for PacketFrameBuilder` on a buffer consisting of a
prefix `d`, the placeholder bytes written by `new`, and a field body. -/
theorem packetNine_drop (d body : List Nat) (fc : Nat) :
    PacketFrameBuilder.drop ⟨fc, d.length, d ++ ([0, 0, 0, 0, 1, 0, 0, 0, 0] ++ body)⟩
      = d ++ (u32be (5 + body.length) ++ (1 :: (u32be fc ++ body))) := by
  have h1 : (d ++ ([0, 0, 0, 0, 1, 0, 0, 0, 0] ++ body)).length - d.length - 4
      = 5 + body.length := by
    simp
    omega
  unfold PacketFrameBuilder.drop
  dsimp only
  rw [h1]
  have h2 : d ++ ([0, 0, 0, 0, 1, 0, 0, 0, 0] ++ body)
      = d ++ (([0, 0, 0, 0] : List Nat) ++ ([1, 0, 0, 0, 0] ++ body)) := by simp
  rw [h2, patchAt_exact d _ _ _ (by simp [u32be])]
  have h3 : d ++ (u32be (5 + body.length) ++ ([1, 0, 0, 0, 0] ++ body))
      = (d ++ (u32be (5 + body.length) ++ [1])) ++ (([0, 0, 0, 0] : List Nat) ++ body) := by
    simp
  have h4 : (d ++ (u32be (5 + body.length) ++ [1])).length = d.length + 5 := by
    simp [u32be]
  rw [h3, ← h4, patchAt_exact _ _ _ _ (by simp [u32be])]
  simp

/-! ### Builder interpreter equations -/

mutual
theorem runOpF_eq (op : BuildOp) : ∀ b : FrameBuilder,
    runOpF b op = ⟨b.field_count + 1, b.field_start, b.data ++ opBytes op⟩ :=
  match op with
  | .data tag v => fun b => by
      simp [runOpF, FrameBuilder.add_data, opBytes]
  | .child tag cops => fun b => by
      have ih := runOpsP_eq cops
      simp only [runOpF, PacketFrameBuilder.new, ih]
      have hnine : (b.data ++ u16be tag) ++ [0, 0, 0, 0, 1, 0, 0, 0, 0] ++ opsBytes cops
          = (b.data ++ u16be tag) ++ ([0, 0, 0, 0, 1, 0, 0, 0, 0] ++ opsBytes cops) := by
        simp
      rw [Nat.zero_add, hnine, packetNine_drop]
      simp [opBytes, frameBytes, frameBytes_length]
      congr 1
      rw [u32be_length]
      omega

theorem runOpsF_eq (ops : BuildOps) : ∀ b : FrameBuilder,
    runOpsF b ops
      = ⟨b.field_count + opsCount ops, b.field_start, b.data ++ opsBytes ops⟩ :=
  match ops with
  | .nil => fun b => by simp [runOpsF, opsCount, opsBytes]
  | .cons op ops => fun b => by
      have ih1 := runOpF_eq op b
      have ih2 := runOpsF_eq ops
      simp [runOpsF, ih1, ih2, opsCount, opsBytes]
      omega

theorem runOpP_eq (op : BuildOp) : ∀ b : PacketFrameBuilder,
    runOpP b op = ⟨b.field_count + 1, b.packet_start, b.data ++ opBytes op⟩ :=
  match op with
  | .data tag v => fun b => by
      simp [runOpP, PacketFrameBuilder.add_data, opBytes]
  | .child tag cops => fun b => by
      have ih := runOpsP_eq cops
      simp only [runOpP, PacketFrameBuilder.new, ih]
      have hnine : (b.data ++ u16be tag) ++ [0, 0, 0, 0, 1, 0, 0, 0, 0] ++ opsBytes cops
          = (b.data ++ u16be tag) ++ ([0, 0, 0, 0, 1, 0, 0, 0, 0] ++ opsBytes cops) := by
        simp
      rw [Nat.zero_add, hnine, packetNine_drop]
      simp [opBytes, frameBytes, frameBytes_length]
      congr 1
      rw [u32be_length]
      omega

theorem runOpsP_eq (ops : BuildOps) : ∀ b : PacketFrameBuilder,
    runOpsP b ops
      = ⟨b.field_count + opsCount ops, b.packet_start, b.data ++ opsBytes ops⟩ :=
  match ops with
  | .nil => fun b => by simp [runOpsP, opsCount, opsBytes]
  | .cons op ops => fun b => by
      have ih1 := runOpP_eq op b
      have ih2 := runOpsP_eq ops
      simp [runOpsP, ih1, ih2, opsCount, opsBytes]
      omega
end

/-- A closed frame build appends exactly `frameBytes ops` to the buffer. -/
theorem buildFrame_eq (data : List Nat) (ops : BuildOps) :
    buildFrame data ops = data ++ frameBytes ops := by
  unfold buildFrame FrameBuilder.new
  rw [runOpsF_eq]
  unfold FrameBuilder.drop
  dsimp only
  have h : data ++ [1, 0, 0, 0, 0] ++ opsBytes ops
      = (data ++ [1]) ++ (([0, 0, 0, 0] : List Nat) ++ opsBytes ops) := by simp
  have hp : (data ++ [1]).length = data.length + 1 := by simp
  rw [Nat.zero_add, h, ← hp, patchAt_exact _ _ _ _ (by simp [u32be])]
  simp [frameBytes]

/-- A closed packet-frame build appends the frame size and the frame bytes. -/
theorem buildPacketFrame_eq (data : List Nat) (ops : BuildOps) :
    buildPacketFrame data ops
      = data ++ u32be (frameBytes ops).length ++ frameBytes ops := by
  unfold buildPacketFrame PacketFrameBuilder.new
  rw [runOpsP_eq]
  have h : data ++ [0, 0, 0, 0, 1, 0, 0, 0, 0] ++ opsBytes ops
      = data ++ ([0, 0, 0, 0, 1, 0, 0, 0, 0] ++ opsBytes ops) := by simp
  rw [Nat.zero_add, h, packetNine_drop]
  simp [frameBytes, frameBytes_length]
  congr 1
  rw [u32be_length]
  omega

/-! ### Parser lemmas -/

theorem take_len_append (p X : List Nat) (n : Nat) (h : p.length = n) :
    (p ++ X).take n = p := by
  subst h
  exact List.take_left p X

theorem drop_len_append (p X : List Nat) (n : Nat) (h : p.length = n) :
    (p ++ X).drop n = X := by
  subst h
  exact List.drop_left p X

/-- Every well-formed builder call appends a syntactically valid field:
tag bytes, length bytes, and exactly that many payload bytes. -/
theorem opBytes_decomp : ∀ op : BuildOp, wfOp op = true →
    ∃ t L payload, opBytes op = u16be t ++ (u32be L ++ payload) ∧
      payload.length = L ∧ L < 2 ^ 32 ∧ t < 2 ^ 16 ∧ opField op = ⟨t, payload⟩
  | .data tag v, h => by
      have hb : tag < 2 ^ 16 ∧ v.length < 2 ^ 32 := by
        simpa [wfOp] using h
      exact ⟨tag, v.length, v, by simp [opBytes], rfl, hb.2, hb.1, rfl⟩
  | .child tag cops, h => by
      have hb : (tag < 2 ^ 16 ∧ (frameBytes cops).length < 2 ^ 32) ∧
          opsCount cops < 2 ^ 32 ∧ wfOps cops = true := by
        simpa [wfOp, and_assoc] using h
      exact ⟨tag, (frameBytes cops).length, frameBytes cops, by simp [opBytes],
        rfl, hb.1.2, hb.1.1, rfl⟩

/-- The field-reading loop of `FrameParser::new` consumes exactly the bytes
appended by a well-formed call sequence and records its fields in order. -/
theorem readFields_spec : ∀ (ops : BuildOps) (rest : List Nat),
    wfOps ops = true →
    readFields (opsCount ops) (opsBytes ops ++ rest) = .ok (opsFields ops, rest)
  | .nil, rest, _ => by simp [opsCount, opsBytes, opsFields, readFields]
  | .cons op ops, rest, h => by
      have hop : wfOp op = true ∧ wfOps ops = true := by
        simpa [wfOps, Bool.and_eq_true] using h
      have ih := readFields_spec ops rest hop.2
      obtain ⟨t, L, payload, hbytes, hplen, hL, ht, hfield⟩ :=
        opBytes_decomp op hop.1
      have hshape : opsBytes (.cons op ops) ++ rest
          = u16be t ++ (u32be L ++ (payload ++ (opsBytes ops ++ rest))) := by
        simp [opsBytes, hbytes]
      have hr1 : read_field_tag_and_length
          (u16be t ++ (u32be L ++ (payload ++ (opsBytes ops ++ rest))))
          = .ok (t, L, payload ++ (opsBytes ops ++ rest)) := by
        unfold read_field_tag_and_length
        rw [if_pos]
        · rw [take_len_append _ _ 2 (u16be_length t),
            drop_len_append _ _ 2 (u16be_length t),
            take_len_append _ _ 4 (u32be_length L),
            drop_len_append _ _ 4 (u32be_length L),
            beVal_u16be t ht, beVal_u32be L hL]
        · simp [u16be, u32be]
      have hr2 : read_field_value (payload ++ (opsBytes ops ++ rest)) L
          = .ok (payload, opsBytes ops ++ rest) := by
        unfold read_field_value
        rw [if_pos]
        · rw [take_len_append _ _ L hplen, drop_len_append _ _ L hplen]
        · simp
          omega
      rw [hshape]
      simp [opsCount, readFields, hr1, hr2, ih, opsFields, hfield]

/-- `FrameParser::new` on the bytes of a closed well-formed frame succeeds
and records exactly the built fields. -/
theorem parse_frameBytes (ops : BuildOps) (h : wfFrame ops = true) :
    FrameParser.new (frameBytes ops) = .ok ⟨opsFields ops⟩ := by
  have hb : opsCount ops < 2 ^ 32 ∧ wfOps ops = true := by
    simpa [wfFrame, Bool.and_eq_true] using h
  have hcount : read_frame_field_count (u32be (opsCount ops) ++ opsBytes ops)
      = .ok (opsCount ops, opsBytes ops) := by
    unfold read_frame_field_count
    rw [if_pos]
    · rw [take_len_append _ _ 4 (u32be_length _),
        drop_len_append _ _ 4 (u32be_length _), beVal_u32be _ hb.1]
    · simp [u32be]
  have hloop := readFields_spec ops [] hb.2
  rw [List.append_nil] at hloop
  unfold FrameParser.new
  simp [frameBytes, read_frame_format, hcount, hloop]

/-- `get_data` on fields built from a call sequence finds the first call
with the tag. -/
theorem get_data_opsFields : ∀ (ops : BuildOps) (tag : Nat),
    FrameParser.get_data ⟨opsFields ops⟩ tag
      = (firstWithTag tag ops).map (fun op => (opField op).value)
  | .nil, tag => by simp [opsFields, firstWithTag, FrameParser.get_data]
  | .cons op ops, tag => by
      have ih := get_data_opsFields ops tag
      by_cases hc : (opField op).tag = tag
      · simp [opsFields, firstWithTag, FrameParser.get_data, List.find?, hc]
      · have hbeq : ((opField op).tag == tag) = false := by
          simp [hc]
        simp only [opsFields, firstWithTag, if_neg hc, FrameParser.get_data,
          List.find?, hbeq]
        simpa [FrameParser.get_data] using ih

/-- `wfFrame` holds of the ops of any well-formed child op found by tag. -/
theorem wfFrame_of_firstWithTag : ∀ (ops cops : BuildOps) (tag : Nat),
    wfOps ops = true → firstWithTag tag ops = some (.child tag cops) →
    wfFrame cops = true
  | .nil, _, tag, _, hfind => by simp [firstWithTag] at hfind
  | .cons op ops, cops, tag, h, hfind => by
      have hop : wfOp op = true ∧ wfOps ops = true := by
        simpa [wfOps, Bool.and_eq_true] using h
      by_cases hc : (opField op).tag = tag
      · rw [firstWithTag, if_pos hc] at hfind
        cases op with
        | data t v => exact absurd hfind (by simp)
        | child t c =>
            obtain ⟨ht', hc'⟩ : t = tag ∧ c = cops := by simpa using hfind
            subst hc'
            have hb : (t < 2 ^ 16 ∧ (frameBytes c).length < 2 ^ 32) ∧
                opsCount c < 2 ^ 32 ∧ wfOps c = true := by
              simpa [wfOp, and_assoc] using hop.1
            simp only [wfFrame, Bool.and_eq_true, decide_eq_true_eq]
            exact ⟨hb.2.1, hb.2.2⟩
      · rw [firstWithTag, if_neg hc] at hfind
        exact wfFrame_of_firstWithTag ops cops tag hop.2 hfind

/-- Fields built from a pure `add_data` sequence are the pairs themselves. -/
theorem opsFields_dataOps : ∀ ps : List (Nat × List Nat),
    opsFields (dataOps ps) = ps.map (fun p => ⟨p.1, p.2⟩)
  | [] => by simp [dataOps, opsFields]
  | p :: ps => by simp [dataOps, opsFields, opField, opsFields_dataOps ps]

theorem opsCount_dataOps : ∀ ps : List (Nat × List Nat),
    opsCount (dataOps ps) = ps.length
  | [] => rfl
  | p :: ps => by simp [dataOps, opsCount, opsCount_dataOps ps]

theorem wfOps_dataOps : ∀ ps : List (Nat × List Nat),
    (∀ p ∈ ps, p.1 < 2 ^ 16 ∧ p.2.length < 2 ^ 32) →
    wfOps (dataOps ps) = true
  | [], _ => rfl
  | p :: ps, h => by
      have h1 := h p (by simp)
      have ih := wfOps_dataOps ps (fun q hq => h q (by simp [hq]))
      simp [dataOps, wfOps, wfOp, ih]
      exact ⟨h1.1, h1.2⟩

theorem opsFields_length : ∀ ops : BuildOps, (opsFields ops).length = opsCount ops
  | .nil => rfl
  | .cons op ops => by simp [opsFields, opsCount, opsFields_length ops]

/-! ### Claim theorems -/

/-- C8: after a packet-frame builder closes, the four-byte big-endian size
prefix equals the exact byte length of the inner frame encoding (format byte
plus count plus all fields) that follows it, and an empty packet-frame is
exactly the bytes [0,0,0,5, 1, 0,0,0,0]. -/
theorem c8_packet_size_prefix :
    (∀ (data : List Nat) (ops : BuildOps),
      buildPacketFrame data ops
        = data ++ u32be (frameBytes ops).length ++ frameBytes ops) ∧
    (∀ ops : BuildOps, (frameBytes ops).length < 2 ^ 32 →
      beVal ((buildPacketFrame [] ops).take 4) = (frameBytes ops).length) ∧
    buildPacketFrame [] .nil = [0, 0, 0, 5, 1, 0, 0, 0, 0] := by
  refine ⟨buildPacketFrame_eq, ?_, ?_⟩
  · intro ops h
    rw [buildPacketFrame_eq]
    rw [List.nil_append, take_len_append _ _ 4 (u32be_length _)]
    exact beVal_u32be _ h
  · rw [buildPacketFrame_eq]
    norm_num [frameBytes, opsCount, opsBytes, u32be]

theorem c8_packet_size_prefix_witness :
    (frameBytes (.cons (.data 3 [9, 255]) .nil)).length < 2 ^ 32 ∧
    beVal ((buildPacketFrame [] (.cons (.data 3 [9, 255]) .nil)).take 4)
      = (frameBytes (.cons (.data 3 [9, 255]) .nil)).length :=
  ⟨by norm_num [frameBytes, opsCount, opsBytes, opBytes, u16be, u32be],
    c8_packet_size_prefix.2.1 _
      (by norm_num [frameBytes, opsCount, opsBytes, opBytes, u16be, u32be])⟩

/-- C10: `add_child` writes only the two-byte tag before opening a
packet-frame builder whose size placeholder occupies the position of the
field's length, so the closed child field is byte-for-byte an `add_data`
field whose value is exactly the child's frame bytes — no size prefix inside
the value — and parsing the parent recovers precisely those frame bytes as
the field's value slice. -/
theorem c10_child_field_layout :
    (∀ (b : FrameBuilder) (tag : Nat) (cops : BuildOps),
      runOpF b (.child tag cops) = runOpF b (.data tag (frameBytes cops))) ∧
    (∀ (b : PacketFrameBuilder) (tag : Nat) (cops : BuildOps),
      runOpP b (.child tag cops) = runOpP b (.data tag (frameBytes cops))) ∧
    (∀ (tag : Nat) (cops ops : BuildOps),
      wfFrame (.cons (.child tag cops) ops) = true →
      ∃ P, FrameParser.new (buildFrame [] (.cons (.child tag cops) ops)) = .ok P ∧
        P.get_data tag = some (frameBytes cops)) := by
  refine ⟨?_, ?_, ?_⟩
  · intro b tag cops
    rw [runOpF_eq, runOpF_eq]
    simp [opBytes]
  · intro b tag cops
    rw [runOpP_eq, runOpP_eq]
    simp [opBytes]
  · intro tag cops ops h
    refine ⟨⟨opsFields (.cons (.child tag cops) ops)⟩, ?_, ?_⟩
    · rw [buildFrame_eq, List.nil_append]
      exact parse_frameBytes _ h
    · simp [opsFields, opField, FrameParser.get_data, List.find?]

theorem c10_child_field_layout_witness :
    wfFrame (.cons (.child 1022 (.cons (.data 60 [9, 255]) .nil)) .nil) = true ∧
    ∃ P, FrameParser.new (buildFrame []
        (.cons (.child 1022 (.cons (.data 60 [9, 255]) .nil)) .nil)) = .ok P ∧
      P.get_data 1022 = some (frameBytes (.cons (.data 60 [9, 255]) .nil)) :=
  ⟨by norm_num [wfFrame, wfOps, wfOp, opsCount, frameBytes, opsBytes, opBytes,
      u16be, u32be],
    c10_child_field_layout.2.2 1022 _ .nil
      (by norm_num [wfFrame, wfOps, wfOp, opsCount, frameBytes, opsBytes,
        opBytes, u16be, u32be])⟩

/-- C7: after any well-formed sequence of `add_*` calls closes, the
four-byte big-endian count field in the emitted bytes equals the number of
calls, and parsing the emitted bytes succeeds with exactly that many
recorded fields. -/
theorem c7_field_count (ops : BuildOps) (h : wfFrame ops = true) :
    (buildFrame [] ops).take 5 = 1 :: u32be (opsCount ops) ∧
    beVal (((buildFrame [] ops).drop 1).take 4) = opsCount ops ∧
    ∃ P, FrameParser.new (buildFrame [] ops) = .ok P ∧
      P.fields.length = opsCount ops := by
  have hc : opsCount ops < 2 ^ 32 := by
    have := h
    simp only [wfFrame, Bool.and_eq_true, decide_eq_true_eq] at this
    exact this.1
  have hbf : buildFrame [] ops = frameBytes ops := by
    rw [buildFrame_eq, List.nil_append]
  have hfb : frameBytes ops = 1 :: (u32be (opsCount ops) ++ opsBytes ops) := by
    rw [frameBytes]
  refine ⟨?_, ?_, ⟨opsFields ops⟩, ?_, opsFields_length ops⟩
  · rw [hbf, hfb]
    have h5 : (1 :: (u32be (opsCount ops) ++ opsBytes ops)).take 5
        = 1 :: (u32be (opsCount ops) ++ opsBytes ops).take 4 := rfl
    rw [h5, take_len_append _ _ 4 (u32be_length _)]
  · rw [hbf, hfb]
    have h1 : (1 :: (u32be (opsCount ops) ++ opsBytes ops)).drop 1
        = u32be (opsCount ops) ++ opsBytes ops := rfl
    rw [h1, take_len_append _ _ 4 (u32be_length _)]
    exact beVal_u32be _ hc
  · rw [hbf]
    exact parse_frameBytes _ h

theorem c7_field_count_witness :
    wfFrame (.cons (.data 3 [7]) (.cons (.data 3 [8, 9]) .nil)) = true ∧
    (buildFrame [] (.cons (.data 3 [7]) (.cons (.data 3 [8, 9]) .nil))).take 5
      = 1 :: u32be (opsCount (.cons (.data 3 [7]) (.cons (.data 3 [8, 9]) .nil))) :=
  ⟨by norm_num [wfFrame, wfOps, wfOp, opsCount],
    (c7_field_count _ (by norm_num [wfFrame, wfOps, wfOp, opsCount])).1⟩

theorem find_map_fields : ∀ (ps : List (Nat × List Nat)) (tag : Nat),
    ((ps.map (fun p => (⟨p.1, p.2⟩ : FrameParserField))).find?
        (fun f => f.tag == tag)).map (fun f => f.value)
      = (ps.find? (fun p => p.1 == tag)).map (fun p => p.2)
  | [], _ => rfl
  | p :: ps, tag => by
      cases hbeq : (p.1 == tag) <;>
        simp [List.find?, hbeq, Function.comp_def, find_map_fields ps tag]

theorem filter_map_fields : ∀ (ps : List (Nat × List Nat)) (tag : Nat),
    ((ps.map (fun p => (⟨p.1, p.2⟩ : FrameParserField))).filter
        (fun f => f.tag == tag)).map (fun f => f.value)
      = (ps.filter (fun p => p.1 == tag)).map (fun p => p.2)
  | [], _ => rfl
  | p :: ps, tag => by
      cases hbeq : (p.1 == tag) <;>
        simp [List.filter, hbeq, Function.comp_def, filter_map_fields ps tag]

/-- C3: building any sequence of `add_data(tag, bytes)` calls and parsing the
closed buffer succeeds; `get_data(tag)` returns exactly the first byte
sequence added under that tag (`none` when absent) and `get_datas(tag)`
yields all values for the tag in insertion order, duplicates included. -/
theorem c3_add_data_roundtrip (ps : List (Nat × List Nat))
    (h1 : ∀ p ∈ ps, p.1 < 2 ^ 16 ∧ p.2.length < 2 ^ 32)
    (h2 : ps.length < 2 ^ 32) :
    ∃ P, FrameParser.new (buildFrame [] (dataOps ps)) = .ok P ∧
      (∀ tag, P.get_data tag
        = (ps.find? (fun p => p.1 == tag)).map (fun p => p.2)) ∧
      (∀ tag, P.get_datas tag
        = (ps.filter (fun p => p.1 == tag)).map (fun p => p.2)) := by
  have hwf : wfFrame (dataOps ps) = true := by
    simp only [wfFrame, Bool.and_eq_true, decide_eq_true_eq]
    exact ⟨by rw [opsCount_dataOps]; exact h2, wfOps_dataOps ps h1⟩
  refine ⟨⟨opsFields (dataOps ps)⟩, ?_, ?_, ?_⟩
  · rw [buildFrame_eq, List.nil_append]
    exact parse_frameBytes _ hwf
  · intro tag
    rw [show FrameParser.get_data ⟨opsFields (dataOps ps)⟩ tag
        = ((opsFields (dataOps ps)).find?
            (fun f => f.tag == tag)).map (fun f => f.value) from rfl]
    rw [opsFields_dataOps]
    exact find_map_fields ps tag
  · intro tag
    rw [show FrameParser.get_datas ⟨opsFields (dataOps ps)⟩ tag
        = ((opsFields (dataOps ps)).filter
            (fun f => f.tag == tag)).map (fun f => f.value) from rfl]
    rw [opsFields_dataOps]
    exact filter_map_fields ps tag

theorem c3_add_data_roundtrip_witness :
    (∀ p ∈ [((3 : Nat), [9, 255]), (3, [7]), (5, ([] : List Nat))],
      p.1 < 2 ^ 16 ∧ p.2.length < 2 ^ 32) ∧
    ∃ P, FrameParser.new
        (buildFrame [] (dataOps [(3, [9, 255]), (3, [7]), (5, [])])) = .ok P ∧
      (∀ tag, P.get_data tag
        = (([((3 : Nat), [9, 255]), (3, [7]), (5, ([] : List Nat))]).find?
            (fun p => p.1 == tag)).map (fun p => p.2)) ∧
      (∀ tag, P.get_datas tag
        = (([((3 : Nat), [9, 255]), (3, [7]), (5, ([] : List Nat))]).filter
            (fun p => p.1 == tag)).map (fun p => p.2)) :=
  ⟨by decide,
    c3_add_data_roundtrip [(3, [9, 255]), (3, [7]), (5, [])] (by decide) (by decide)⟩

/-- C2 (spec-modelled): `add_compact_u16/u32/u64` append a field whose value
uses the smallest fixed width (1, 2, 4 or 8 bytes, by threshold fall-through)
that losslessly holds the value — the value decodes back to `v` by big-endian
interpretation — and in particular `add_compact_u32(tag, 0xFFFF)` appends a
2-byte value while `add_compact_u32(tag, 0x10000)` appends a 4-byte value. -/
theorem c2_compact_encodings :
    (∀ tag v : Nat, v < 2 ^ 16 →
      ((opField (add_compact_u16 tag v)).value).length
          = (if v ≤ 0xFF then 1 else 2) ∧
        beVal ((opField (add_compact_u16 tag v)).value) = v) ∧
    (∀ tag v : Nat, v < 2 ^ 32 →
      ((opField (add_compact_u32 tag v)).value).length
          = (if v ≤ 0xFF then 1 else if v ≤ 0xFFFF then 2 else 4) ∧
        beVal ((opField (add_compact_u32 tag v)).value) = v) ∧
    (∀ tag v : Nat, v < 2 ^ 64 →
      ((opField (add_compact_u64 tag v)).value).length
          = (if v ≤ 0xFF then 1
             else if v ≤ 0xFFFF then 2
             else if v ≤ 0xFFFFFFFF then 4 else 8) ∧
        beVal ((opField (add_compact_u64 tag v)).value) = v) ∧
    (∀ tag : Nat, ((opField (add_compact_u32 tag 0xFFFF)).value).length = 2) ∧
    (∀ tag : Nat, ((opField (add_compact_u32 tag 0x10000)).value).length = 4) := by
  have h16 : ∀ tag v : Nat, v < 2 ^ 16 →
      ((opField (add_compact_u16 tag v)).value).length
          = (if v ≤ 0xFF then 1 else 2) ∧
        beVal ((opField (add_compact_u16 tag v)).value) = v := by
    intro tag v hv
    unfold add_compact_u16 add_u8op add_u16op
    by_cases h : v ≤ 0xFF
    · rw [if_pos h, if_pos h]
      constructor
      · simp [opField]
      · simp [opField, beVal]
        omega
    · rw [if_neg h, if_neg h]
      exact ⟨by simp [opField, u16be_length], by simp [opField, beVal_u16be v hv]⟩
  have h32 : ∀ tag v : Nat, v < 2 ^ 32 →
      ((opField (add_compact_u32 tag v)).value).length
          = (if v ≤ 0xFF then 1 else if v ≤ 0xFFFF then 2 else 4) ∧
        beVal ((opField (add_compact_u32 tag v)).value) = v := by
    intro tag v hv
    unfold add_compact_u32
    by_cases h : v ≤ 0xFFFF
    · rw [if_pos h]
      have := h16 tag v (by omega)
      by_cases h8 : v ≤ 0xFF
      · rw [if_pos h8]
        simpa [h8] using this
      · rw [if_neg h8, if_pos h]
        simpa [h8] using this
    · rw [if_neg h, if_neg (by omega : ¬ v ≤ 0xFF), if_neg h]
      unfold add_u32op
      exact ⟨by simp [opField, u32be_length], by simp [opField, beVal_u32be v hv]⟩
  refine ⟨h16, h32, ?_, ?_, ?_⟩
  · intro tag v hv
    unfold add_compact_u64
    by_cases h : v ≤ 0xFFFFFFFF
    · rw [if_pos h]
      have := h32 tag v (by omega)
      by_cases h8 : v ≤ 0xFF
      · rw [if_pos h8]
        simpa [h8] using this
      · by_cases h16v : v ≤ 0xFFFF
        · rw [if_neg h8, if_pos h16v]
          simpa [h8, h16v] using this
        · rw [if_neg h8, if_neg h16v, if_pos h]
          simpa [h8, h16v] using this
    · rw [if_neg (by omega : ¬ v ≤ 0xFF), if_neg (by omega : ¬ v ≤ 0xFFFF),
        if_neg h, if_neg h]
      unfold add_u64op
      exact ⟨by simp [opField, u64be_length], by simp [opField, beVal_u64be v hv]⟩
  · intro tag
    exact (h32 tag 0xFFFF (by omega)).1.trans (by norm_num)
  · intro tag
    exact (h32 tag 0x10000 (by omega)).1.trans (by norm_num)

theorem c2_compact_encodings_witness :
    ((0xFFFF : Nat) < 2 ^ 32 ∧
      ((opField (add_compact_u32 7 0xFFFF)).value).length
        = (if (0xFFFF : Nat) ≤ 0xFF then 1
           else if (0xFFFF : Nat) ≤ 0xFFFF then 2 else 4)) ∧
    ((0x10000 : Nat) < 2 ^ 32 ∧
      ((opField (add_compact_u32 7 0x10000)).value).length
        = (if (0x10000 : Nat) ≤ 0xFF then 1
           else if (0x10000 : Nat) ≤ 0xFFFF then 2 else 4)) :=
  ⟨⟨by norm_num, (c2_compact_encodings.2.1 7 0xFFFF (by norm_num)).1⟩,
    ⟨by norm_num, (c2_compact_encodings.2.1 7 0x10000 (by norm_num)).1⟩⟩

/-- C9: `add_bool` encodes false as the single byte 0x00 and true as 0xFF;
`decode_bool` on a one-byte value returns false for 0x00, true for 0xFF, and
fails with IncompatibleFieldValue for every other single byte; and
`add_bool` followed by `get_bool` on the same tag round-trips. -/
theorem c9_bool_encoding :
    (∀ tag : Nat, add_boolop tag false = .data tag [0x00] ∧
      add_boolop tag true = .data tag [0xFF]) ∧
    decode_bool [0x00] = .ok false ∧
    decode_bool [0xFF] = .ok true ∧
    (∀ b : Nat, b ≠ 0x00 → b ≠ 0xFF →
      decode_bool [b] = .error .IncompatibleFieldValue) ∧
    (∀ (tag : Nat) (v : Bool), tag < 2 ^ 16 →
      ∃ P, FrameParser.new (buildFrame [] (.cons (add_boolop tag v) .nil)) = .ok P ∧
        P.get_bool tag = .ok (some v)) := by
  refine ⟨fun tag => ⟨rfl, rfl⟩, rfl, rfl, ?_, ?_⟩
  · intro b hb0 hbff
    unfold decode_bool
    rw [if_neg (by simp)]
    have hh : ([b].headD 0) = b := rfl
    rw [hh]
    split
    · exact absurd rfl hb0
    · exact absurd rfl hbff
    · rfl
  · intro tag v htag
    have hwf : wfFrame (.cons (add_boolop tag v) .nil) = true := by
      cases v <;>
        · simp [wfFrame, wfOps, wfOp, opsCount, add_boolop, add_u8op]
          omega
    refine ⟨⟨opsFields (.cons (add_boolop tag v) .nil)⟩, ?_, ?_⟩
    · rw [buildFrame_eq, List.nil_append]
      exact parse_frameBytes _ hwf
    · cases v <;>
        simp [opsFields, opField, add_boolop, add_u8op, FrameParser.get_bool,
          FrameParser.decode_value, FrameParser.get_data, List.find?,
          decode_bool]

theorem c9_bool_encoding_witness :
    ((241 : Nat) ≠ 0x00 → (241 : Nat) ≠ 0xFF →
      decode_bool [241] = .error .IncompatibleFieldValue) ∧
    ((1022 : Nat) < 2 ^ 16 ∧
      ∃ P, FrameParser.new
          (buildFrame [] (.cons (add_boolop 1022 true) .nil)) = .ok P ∧
        P.get_bool 1022 = .ok (some true)) :=
  ⟨c9_bool_encoding.2.2.2.1 241,
    ⟨by norm_num, c9_bool_encoding.2.2.2.2 1022 true (by norm_num)⟩⟩

/-- C4: a value written with `add_u8` reads back unchanged through
`get_u16`, `get_u32` and `get_u64`; more generally each decoder accepts every
encoded width (1, 2, 4 or 8 bytes) at most its target width and returns the
big-endian value of the bytes unchanged. -/
theorem c4_widening :
    (∀ tag v : Nat, tag < 2 ^ 16 → v < 2 ^ 8 →
      ∃ P, FrameParser.new (buildFrame [] (.cons (add_u8op tag v) .nil)) = .ok P ∧
        P.get_u16 tag = .ok (some v) ∧ P.get_u32 tag = .ok (some v) ∧
        P.get_u64 tag = .ok (some v)) ∧
    (∀ b0 : Nat, decode_u8 [b0] = .ok (beVal [b0])) ∧
    (∀ b0 : Nat, decode_u16 [b0] = .ok (beVal [b0])) ∧
    (∀ b0 b1 : Nat, decode_u16 [b0, b1] = .ok (beVal [b0, b1])) ∧
    (∀ b0 : Nat, decode_u32 [b0] = .ok (beVal [b0])) ∧
    (∀ b0 b1 : Nat, decode_u32 [b0, b1] = .ok (beVal [b0, b1])) ∧
    (∀ b0 b1 b2 b3 : Nat,
      decode_u32 [b0, b1, b2, b3] = .ok (beVal [b0, b1, b2, b3])) ∧
    (∀ b0 : Nat, decode_u64 [b0] = .ok (beVal [b0])) ∧
    (∀ b0 b1 : Nat, decode_u64 [b0, b1] = .ok (beVal [b0, b1])) ∧
    (∀ b0 b1 b2 b3 : Nat,
      decode_u64 [b0, b1, b2, b3] = .ok (beVal [b0, b1, b2, b3])) ∧
    (∀ b0 b1 b2 b3 b4 b5 b6 b7 : Nat,
      decode_u64 [b0, b1, b2, b3, b4, b5, b6, b7]
        = .ok (beVal [b0, b1, b2, b3, b4, b5, b6, b7])) := by
  refine ⟨?_, fun b0 => by simp [decode_u8, beVal],
    fun b0 => by simp [decode_u16, beVal], fun b0 b1 => rfl,
    fun b0 => by simp [decode_u32, beVal], fun b0 b1 => rfl, fun b0 b1 b2 b3 => rfl,
    fun b0 => by simp [decode_u64, beVal], fun b0 b1 => rfl,
    fun b0 b1 b2 b3 => rfl, fun b0 b1 b2 b3 b4 b5 b6 b7 => rfl⟩
  intro tag v htag hv
  have hwf : wfFrame (.cons (add_u8op tag v) .nil) = true := by
    simp [wfFrame, wfOps, wfOp, opsCount, add_u8op]
    omega
  have hmod : v % 256 = v := Nat.mod_eq_of_lt hv
  refine ⟨⟨opsFields (.cons (add_u8op tag v) .nil)⟩, ?_, ?_, ?_, ?_⟩
  · rw [buildFrame_eq, List.nil_append]
    exact parse_frameBytes _ hwf
  all_goals
    simp [opsFields, opField, add_u8op, hmod, FrameParser.get_u16,
      FrameParser.get_u32, FrameParser.get_u64, FrameParser.decode_value,
      FrameParser.get_data, List.find?, decode_u16, decode_u32, decode_u64,
      beVal]

theorem c4_widening_witness :
    ((100 : Nat) < 2 ^ 16 ∧ (250 : Nat) < 2 ^ 8 ∧
      ∃ P, FrameParser.new
          (buildFrame [] (.cons (add_u8op 100 250) .nil)) = .ok P ∧
        P.get_u16 100 = .ok (some 250) ∧ P.get_u32 100 = .ok (some 250) ∧
        P.get_u64 100 = .ok (some 250)) :=
  ⟨by norm_num, by norm_num, c4_widening.1 100 250 (by norm_num) (by norm_num)⟩

theorem decode_u8_u16be (v : Nat) (hv : v < 2 ^ 16) :
    decode_u8 (u16be v)
      = if v ≤ 0xFF then .ok v else .error .IncompatibleFieldValue := by
  have hbv := beVal_u16be v hv
  show decode_u8 [v / 2 ^ 8 % 256, v % 256] = _
  rw [show decode_u8 [v / 2 ^ 8 % 256, v % 256]
      = (if beVal [v / 2 ^ 8 % 256, v % 256] ≤ 0xFF
         then .ok (beVal [v / 2 ^ 8 % 256, v % 256])
         else .error .IncompatibleFieldValue) from rfl]
  rw [show beVal [v / 2 ^ 8 % 256, v % 256] = v from hbv]

/-- C5: a value written with `add_u16` and read back with `get_u8` fails
with IncompatibleFieldValue when it exceeds 0xFF and succeeds with the same
value otherwise; and every width-checked decoder (u8, u16, u32, u64, bool)
rejects a value whose byte length is not a recognized width with
IncompatibleFieldLength carrying that length. -/
theorem c5_narrowing :
    (∀ tag v : Nat, tag < 2 ^ 16 → v < 2 ^ 16 → 0xFF < v →
      ∃ P, FrameParser.new (buildFrame [] (.cons (add_u16op tag v) .nil)) = .ok P ∧
        P.get_u8 tag = .error .IncompatibleFieldValue) ∧
    (∀ tag v : Nat, tag < 2 ^ 16 → v ≤ 0xFF →
      ∃ P, FrameParser.new (buildFrame [] (.cons (add_u16op tag v) .nil)) = .ok P ∧
        P.get_u8 tag = .ok (some v)) ∧
    (∀ bs : List Nat,
      bs.length ≠ 1 → bs.length ≠ 2 → bs.length ≠ 4 → bs.length ≠ 8 →
      decode_u8 bs = .error (.IncompatibleFieldLength bs.length) ∧
      decode_u16 bs = .error (.IncompatibleFieldLength bs.length) ∧
      decode_u32 bs = .error (.IncompatibleFieldLength bs.length) ∧
      decode_u64 bs = .error (.IncompatibleFieldLength bs.length)) ∧
    (∀ bs : List Nat, bs.length ≠ 1 →
      decode_bool bs = .error (.IncompatibleFieldLength bs.length)) := by
  have hpipe : ∀ tag v : Nat, tag < 2 ^ 16 → v < 2 ^ 16 →
      ∃ P, FrameParser.new (buildFrame [] (.cons (add_u16op tag v) .nil)) = .ok P ∧
        P.get_u8 tag
          = (if v ≤ 0xFF then .ok (some v) else .error .IncompatibleFieldValue) := by
    intro tag v htag hv
    have hwf : wfFrame (.cons (add_u16op tag v) .nil) = true := by
      simp [wfFrame, wfOps, wfOp, opsCount, add_u16op, u16be_length]
      omega
    refine ⟨⟨opsFields (.cons (add_u16op tag v) .nil)⟩, ?_, ?_⟩
    · rw [buildFrame_eq, List.nil_append]
      exact parse_frameBytes _ hwf
    · have hdec := decode_u8_u16be v hv
      by_cases hle : v ≤ 0xFF
      · rw [if_pos hle] at hdec ⊢
        simp [opsFields, opField, add_u16op, FrameParser.get_u8,
          FrameParser.decode_value, FrameParser.get_data, List.find?, hdec]
      · rw [if_neg hle] at hdec ⊢
        simp [opsFields, opField, add_u16op, FrameParser.get_u8,
          FrameParser.decode_value, FrameParser.get_data, List.find?, hdec]
  refine ⟨?_, ?_, ?_, ?_⟩
  · intro tag v htag hv hgt
    obtain ⟨P, hP, hget⟩ := hpipe tag v htag hv
    rw [if_neg (by omega)] at hget
    exact ⟨P, hP, hget⟩
  · intro tag v htag hle
    obtain ⟨P, hP, hget⟩ := hpipe tag v htag (by omega)
    rw [if_pos hle] at hget
    exact ⟨P, hP, hget⟩
  · intro bs h1 h2 h4 h8
    refine ⟨?_, ?_, ?_, ?_⟩
    · unfold decode_u8
      split <;> simp_all
    · unfold decode_u16
      split <;> simp_all
    · unfold decode_u32
      split <;> simp_all
    · unfold decode_u64
      split <;> simp_all
  · intro bs h1
    unfold decode_bool
    rw [if_pos h1]

theorem c5_narrowing_witness :
    ((200 : Nat) < 2 ^ 16 ∧ (251 : Nat) ≤ 0xFF ∧
      ∃ P, FrameParser.new
          (buildFrame [] (.cons (add_u16op 200 251) .nil)) = .ok P ∧
        P.get_u8 200 = .ok (some 251)) ∧
    ((200 : Nat) < 2 ^ 16 ∧ (1025 : Nat) < 2 ^ 16 ∧ (0xFF : Nat) < 1025 ∧
      ∃ P, FrameParser.new
          (buildFrame [] (.cons (add_u16op 200 1025) .nil)) = .ok P ∧
        P.get_u8 200 = .error .IncompatibleFieldValue) ∧
    (([] : List Nat).length ≠ 1 →
      decode_bool [] = .error (.IncompatibleFieldLength ([] : List Nat).length)) ∧
    decode_u8 [1, 2, 3] = .error (.IncompatibleFieldLength 3) :=
  ⟨⟨by norm_num, by norm_num,
      c5_narrowing.2.1 200 251 (by norm_num) (by norm_num)⟩,
    ⟨by norm_num, by norm_num, by norm_num,
      c5_narrowing.1 200 1025 (by norm_num) (by norm_num) (by norm_num)⟩,
    c5_narrowing.2.2.2 [],
    by simpa using (c5_narrowing.2.2.1 [1, 2, 3] (by norm_num) (by norm_num)
      (by norm_num) (by norm_num)).1⟩

/-- C6: parsing is a total function yielding a parser or exactly one error:
empty buffer → IncompleteFrameFormat; first byte ≠ 0x01 →
InvalidFrameFormat(byte); fewer than 4 bytes for the count →
IncompleteFrameFieldCount; fewer than 6 bytes at a field header →
IncompleteFieldTagOrLength; declared length exceeding the remaining bytes →
IncompleteFieldValue(expected, actual), in particular
[1,0,0,0,1, 0,1, 0,0,0,4, 1,2,3] → IncompleteFieldValue(4,3); and bytes
remaining after all declared fields → UnexpectedData. -/
theorem c6_parse_errors :
    FrameParser.new [] = .error .IncompleteFrameFormat ∧
    (∀ (b : Nat) (rest : List Nat), b ≠ 1 →
      FrameParser.new (b :: rest) = .error (.InvalidFrameFormat b)) ∧
    (∀ rest : List Nat, rest.length < 4 →
      FrameParser.new (1 :: rest) = .error .IncompleteFrameFieldCount) ∧
    (∀ (n : Nat) (body : List Nat), body.length < 6 →
      readFields (n + 1) body = .error .IncompleteFieldTagOrLength) ∧
    (∀ (data : List Nat) (L : Nat), data.length < L →
      read_field_value data L = .error (.IncompleteFieldValue L data.length)) ∧
    FrameParser.new [1, 0, 0, 0, 1, 0, 1, 0, 0, 0, 4, 1, 2, 3]
      = .error (.IncompleteFieldValue 4 3) ∧
    (∀ (ops : BuildOps) (extra : List Nat), wfFrame ops = true → extra ≠ [] →
      FrameParser.new (frameBytes ops ++ extra) = .error .UnexpectedData) := by
  refine ⟨rfl, ?_, ?_, ?_, ?_, rfl, ?_⟩
  · intro b rest hb
    simp [FrameParser.new, read_frame_format, hb]
  · intro rest hlen
    have hcount : read_frame_field_count rest = .error .IncompleteFrameFieldCount := by
      unfold read_frame_field_count
      rw [if_neg (by omega)]
    simp [FrameParser.new, read_frame_format, hcount]
  · intro n body hlen
    have htl : read_field_tag_and_length body = .error .IncompleteFieldTagOrLength := by
      unfold read_field_tag_and_length
      rw [if_neg (by omega)]
    simp [readFields, htl]
  · intro data L hlen
    unfold read_field_value
    rw [if_neg (by omega)]
  · intro ops extra hwf hex
    have hb : opsCount ops < 2 ^ 32 ∧ wfOps ops = true := by
      simpa [wfFrame, Bool.and_eq_true] using hwf
    have hfb : frameBytes ops ++ extra
        = 1 :: (u32be (opsCount ops) ++ (opsBytes ops ++ extra)) := by
      rw [frameBytes]
      simp
    have hcount : read_frame_field_count (u32be (opsCount ops) ++ (opsBytes ops ++ extra))
        = .ok (opsCount ops, opsBytes ops ++ extra) := by
      unfold read_frame_field_count
      rw [if_pos]
      · rw [take_len_append _ _ 4 (u32be_length _),
          drop_len_append _ _ 4 (u32be_length _), beVal_u32be _ hb.1]
      · simp [u32be]
    have hloop := readFields_spec ops extra hb.2
    rw [hfb]
    simp [FrameParser.new, read_frame_format, hcount, hloop, hex]

theorem c6_parse_errors_witness :
    ((8 : Nat) ≠ 1 ∧ FrameParser.new [8] = .error (.InvalidFrameFormat 8)) ∧
    (([0, 0, 0] : List Nat).length < 4 ∧
      FrameParser.new [1, 0, 0, 0] = .error .IncompleteFrameFieldCount) ∧
    (([0, 1, 0, 0, 0] : List Nat).length < 6 ∧
      readFields 1 [0, 1, 0, 0, 0] = .error .IncompleteFieldTagOrLength) ∧
    (([1, 2, 3] : List Nat).length < 4 ∧
      read_field_value [1, 2, 3] 4 = .error (.IncompleteFieldValue 4 3)) ∧
    (wfFrame .nil = true ∧ ([5] : List Nat) ≠ [] ∧
      FrameParser.new (frameBytes .nil ++ [5]) = .error .UnexpectedData) :=
  ⟨⟨by norm_num, c6_parse_errors.2.1 8 [] (by norm_num)⟩,
    ⟨by norm_num, c6_parse_errors.2.2.1 [0, 0, 0] (by norm_num)⟩,
    ⟨by norm_num, c6_parse_errors.2.2.2.1 0 [0, 1, 0, 0, 0] (by norm_num)⟩,
    ⟨by norm_num, c6_parse_errors.2.2.2.2.1 [1, 2, 3] 4 (by norm_num)⟩,
    ⟨by norm_num [wfFrame, wfOps, opsCount], by simp,
      c6_parse_errors.2.2.2.2.2.2 .nil [5]
        (by norm_num [wfFrame, wfOps, opsCount]) (by simp)⟩⟩

/-- C1 (counterexample to the claim as stated): for the frame built by
`add_child(1022)` with one child field, `get_child` succeeds — parsing the
looked-up value slice directly as a frame — yet that value slice is NOT an
embedded Packet-Frame: it carries no four-byte size prefix (its first four
bytes, read as a size, do not match the remaining length), because the
child's size prefix was consumed as the parent field's length. -/
theorem c1_value_slice_not_packet_frame :
    buildFrame [] (.cons (.child 1022 (.cons (.data 60 [9, 255]) .nil)) .nil)
      = [1, 0, 0, 0, 1, 3, 254, 0, 0, 0, 13,
         1, 0, 0, 0, 1, 0, 60, 0, 0, 0, 2, 9, 255] ∧
    FrameParser.new [1, 0, 0, 0, 1, 3, 254, 0, 0, 0, 13,
        1, 0, 0, 0, 1, 0, 60, 0, 0, 0, 2, 9, 255]
      = .ok ⟨[⟨1022, [1, 0, 0, 0, 1, 0, 60, 0, 0, 0, 2, 9, 255]⟩]⟩ ∧
    FrameParser.get_data ⟨[⟨1022, [1, 0, 0, 0, 1, 0, 60, 0, 0, 0, 2, 9, 255]⟩]⟩ 1022
      = some [1, 0, 0, 0, 1, 0, 60, 0, 0, 0, 2, 9, 255] ∧
    FrameParser.get_child ⟨[⟨1022, [1, 0, 0, 0, 1, 0, 60, 0, 0, 0, 2, 9, 255]⟩]⟩ 1022
      = .ok (some ⟨[⟨60, [9, 255]⟩]⟩) ∧
    ¬ IsPacketFrame [1, 0, 0, 0, 1, 0, 60, 0, 0, 0, 2, 9, 255] := by
  refine ⟨?_, rfl, rfl, rfl, ?_⟩
  · rw [buildFrame_eq, List.nil_append]
    norm_num [frameBytes, opsCount, opsBytes, opBytes, u16be, u32be]
  · rintro ⟨-, hsize, -⟩
    exact absurd hsize (by decide)

/-- C1 (amended): for every frame containing a field built by
`add_child(tag)`, `get_child(tag)` treats the looked-up value slice as an
embedded Frame — the child packet-frame's four-byte size prefix is stored as
the parent field's length, so the slice is the child's frame bytes with no
size prefix inside — and recursively parses it exactly as a top-level frame
parse does, returning a nested parser whose lookups match what was written
into the child builder. -/
theorem c1_get_child_parses_child_frame (ops cops : BuildOps) (tag : Nat)
    (h : wfFrame ops = true)
    (hfind : firstWithTag tag ops = some (.child tag cops)) :
    ∃ P C, FrameParser.new (buildFrame [] ops) = .ok P ∧
      P.get_data tag = some (frameBytes cops) ∧
      P.get_child tag = .ok (some C) ∧
      C.fields = opsFields cops ∧
      (∀ t : Nat, C.get_data t
        = (firstWithTag t cops).map (fun op => (opField op).value)) := by
  have hb : opsCount ops < 2 ^ 32 ∧ wfOps ops = true := by
    simpa [wfFrame, Bool.and_eq_true] using h
  have hwfc : wfFrame cops = true :=
    wfFrame_of_firstWithTag ops cops tag hb.2 hfind
  have hgd : FrameParser.get_data ⟨opsFields ops⟩ tag = some (frameBytes cops) := by
    rw [get_data_opsFields, hfind]
    rfl
  refine ⟨⟨opsFields ops⟩, ⟨opsFields cops⟩, ?_, hgd, ?_, rfl,
    fun t => get_data_opsFields cops t⟩
  · rw [buildFrame_eq, List.nil_append]
    exact parse_frameBytes ops h
  · simp [FrameParser.get_child, hgd, parse_frameBytes cops hwfc]

theorem c1_get_child_parses_child_frame_witness :
    wfFrame (.cons (.data 100 [1])
      (.cons (.child 200 (.cons (.data 300 [3]) .nil)) .nil)) = true ∧
    firstWithTag 200 (.cons (.data 100 [1])
        (.cons (.child 200 (.cons (.data 300 [3]) .nil)) .nil))
      = some (.child 200 (.cons (.data 300 [3]) .nil)) ∧
    ∃ P C, FrameParser.new (buildFrame [] (.cons (.data 100 [1])
        (.cons (.child 200 (.cons (.data 300 [3]) .nil)) .nil))) = .ok P ∧
      P.get_data 200 = some (frameBytes (.cons (.data 300 [3]) .nil)) ∧
      P.get_child 200 = .ok (some C) ∧
      C.fields = opsFields (.cons (.data 300 [3]) .nil) ∧
      (∀ t : Nat, C.get_data t
        = (firstWithTag t (.cons (.data 300 [3]) .nil)).map
            (fun op => (opField op).value)) :=
  ⟨by norm_num [wfFrame, wfOps, wfOp, opsCount, frameBytes, opsBytes, opBytes,
      u16be, u32be],
    by norm_num [firstWithTag, opField],
    c1_get_child_parses_child_frame _ _ 200
      (by norm_num [wfFrame, wfOps, wfOp, opsCount, frameBytes, opsBytes,
        opBytes, u16be, u32be])
      (by norm_num [firstWithTag, opField])⟩

end Yatlv
